import Mathlib

/-!
Verification of the interview/agent core of the Interviewer-AI backend.

The Python source under `backend/app/agent/` is shallowly embedded below.
Strings are modelled as `List Char` (written `Str`); Python's text-generation
calls (`llm.predict`, `chain.run`) are external and are passed in as explicit
parameters, either as the produced text or as an `Except` value when the
relevant code path catches generation failures.  Regular-expression based
extraction helpers are translated into direct scanners that reproduce the
semantics of the concrete patterns appearing in the source (leftmost match,
greedy/lazy behaviour and backtracking as exercised by those patterns).
-/

namespace InterviewerAI

abbrev Str := List Char

/-- Coerce a Lean string literal to the `List Char` representation. -/
def str (s : String) : Str := s.data

/-- ASCII lower-casing, modelling Python `str.lower()` on the ASCII texts
the agents manipulate. -/
def lowerChar (c : Char) : Char :=
  if 'A' ≤ c ∧ c ≤ 'Z' then Char.ofNat (c.toNat + 32) else c

def asciiLower (s : Str) : Str := s.map lowerChar

/-- Python whitespace class (`\s` over ASCII, and the default `str.strip` /
`str.split` separator set). -/
def isWs (c : Char) : Bool :=
  c = ' ' || c = '\t' || c = '\n' || c = '\r' || c = '\x0b' || c = '\x0c'

def isDigitCh (c : Char) : Bool := '0' ≤ c && c ≤ '9'

def isAsciiLetter (c : Char) : Bool :=
  ('a' ≤ c && c ≤ 'z') || ('A' ≤ c && c ≤ 'Z')

/-- Python's substring test `sub in s`. -/
def containsSub : Str → Str → Bool
  | [], sub => sub.isPrefixOf ([] : Str)
  | c :: t, sub => sub.isPrefixOf (c :: t) || containsSub t sub

/-- All start positions at which `sub` occurs in `s`. -/
def occurrences (s sub : Str) : List Nat :=
  (List.range (s.length + 1)).filter (fun i => sub.isPrefixOf (s.drop i))

/-- Python `s.find(sub)`: index of the first occurrence, `none` for `-1`. -/
def strFind (s sub : Str) : Option Nat :=
  (List.range (s.length + 1)).find? (fun i => sub.isPrefixOf (s.drop i))

/-- Python `s.rfind(sub)` as an integer: last occurrence index, `-1` if
`sub` does not occur. -/
def pyRfind (s sub : Str) : Int :=
  ((occurrences s sub).map Int.ofNat).foldl max (-1)

/-- Python `max(l)` on a list of ints; the sources only apply it to
non-empty lists (the `0` default for `[]` is never reached there). -/
def pyMax : List Int → Int
  | [] => 0
  | x :: xs => xs.foldl max x

/-- Split on every occurrence of a delimiter character, keeping empty
pieces, as Python `s.split(d)` and `re.split` with a character class do. -/
def splitOnAny (delims : Str) : Str → List Str
  | [] => [[]]
  | c :: t =>
    if delims.contains c then [] :: splitOnAny delims t
    else
      match splitOnAny delims t with
      | [] => [[c]]
      | p :: ps => (c :: p) :: ps

def splitOnChar (d : Char) (s : Str) : List Str := splitOnAny [d] s

/-- Python `s.strip()` with the default whitespace set. -/
def pyStrip (s : Str) : Str :=
  ((s.dropWhile isWs).reverse.dropWhile isWs).reverse

/-- Python `s.split()` with no argument: whitespace-separated words. -/
def pySplitWs (s : Str) : List Str :=
  (splitOnAny (str " \t\n\r\x0b\x0c") s).filter (fun p => !p.isEmpty)

def digitsToNat (s : Str) : Nat :=
  s.foldl (fun acc c => acc * 10 + (c.toNat - '0'.toNat)) 0

/-- First position (scanning left to right) at which `f` produces a value,
the scanning skeleton shared by the `re.findall`/`re.search` translations. -/
def firstSome {α : Type} (f : Nat → Option α) : List Nat → Option α
  | [] => none
  | i :: is =>
    match f i with
    | some v => some v
    | none => firstSome f is

/-! ## JSON values and `json.loads`

The evaluator agents call `json.loads` on brace-delimited candidate blocks.
We model the JSON fragment those agents rely on: objects, arrays, strings
with the single-character escapes, integers, booleans and null.  Floats,
exponents and `\u` escapes are outside the modelled fragment (the parser
rejects them, as they play no role in the claims below). -/

inductive J where
  | jnull : J
  | jbool : Bool → J
  | jnum : Int → J
  | jstr : Str → J
  | jarr : List J → J
  | jobj : List (Str × J) → J
  deriving Repr

/-- Python `dict` insertion: replace the value in place when the key is
present (keys stay in first-insertion order), else append. -/
def dictInsert : List (Str × J) → Str → J → List (Str × J)
  | [], k, v => [(k, v)]
  | (k', v') :: rest, k, v =>
    if k' == k then (k', v) :: rest else (k', v') :: dictInsert rest k v

def objHasKey (kvs : List (Str × J)) (k : Str) : Bool :=
  kvs.any (fun p => p.1 == k)

/-- Python `d[k]` / `k in d` on the modelled object. -/
def objGet : J → Str → Option J
  | J.jobj kvs, k => (kvs.find? (fun p => p.1 == k)).map (fun p => p.2)
  | _, _ => none

/-- Python truthiness (`not value`) on JSON values. -/
def jFalsy : J → Bool
  | J.jnull => true
  | J.jbool b => !b
  | J.jnum n => n == 0
  | J.jstr s => s.isEmpty
  | J.jarr l => l.isEmpty
  | J.jobj l => l.isEmpty

def isJsonWs (c : Char) : Bool := c = ' ' || c = '\t' || c = '\n' || c = '\r'

def skipWs (s : Str) : Str := s.dropWhile isJsonWs

/-- JSON string body after the opening quote: `\u` escapes are outside the
modelled fragment. -/
def parseStringBody : Str → Option (Str × Str)
  | [] => none
  | '"' :: rest => some ([], rest)
  | '\\' :: e :: rest =>
    let esc : Option Char :=
      match e with
      | '"' => some '"'
      | '\\' => some '\\'
      | '/' => some '/'
      | 'n' => some '\n'
      | 't' => some '\t'
      | 'r' => some '\r'
      | 'b' => some '\x08'
      | 'f' => some '\x0c'
      | _ => none
    match esc with
    | some c => (parseStringBody rest).map (fun p => (c :: p.1, p.2))
    | none => none
  | c :: rest => (parseStringBody rest).map (fun p => (c :: p.1, p.2))

/-- JSON integer literal (no leading zeros, no fraction/exponent in the
modelled fragment). -/
def parseNumBody (s : Str) : Option (Int × Str) :=
  let neg := s.headI = '-'
  let r := if neg then s.drop 1 else s
  let digs := r.takeWhile isDigitCh
  if digs.isEmpty then none
  else if digs.length > 1 && digs.headI = '0' then none
  else
    let rest := r.drop digs.length
    match rest with
    | c :: _ =>
      if c = '.' || c = 'e' || c = 'E' then none
      else some ((if neg then -(digitsToNat digs : Int) else (digitsToNat digs : Int)), rest)
    | [] => some ((if neg then -(digitsToNat digs : Int) else (digitsToNat digs : Int)), [])

mutual

def parseVal : Nat → Str → Option (J × Str)
  | 0, _ => none
  | fuel + 1, s =>
    let s := skipWs s
    match s with
    | [] => none
    | '\x7b' :: rest =>
      (match skipWs rest with
       | '\x7d' :: r2 => some (J.jobj [], r2)
       | r => parseMembers fuel r [])
    | '[' :: rest =>
      (match skipWs rest with
       | ']' :: r2 => some (J.jarr [], r2)
       | r => parseItems fuel r [])
    | '"' :: rest => (parseStringBody rest).map (fun p => (J.jstr p.1, p.2))
    | c :: _ =>
      if (str "true").isPrefixOf s then some (J.jbool true, s.drop 4)
      else if (str "false").isPrefixOf s then some (J.jbool false, s.drop 5)
      else if (str "null").isPrefixOf s then some (J.jnull, s.drop 4)
      else if c = '-' || isDigitCh c then
        (parseNumBody s).map (fun p => (J.jnum p.1, p.2))
      else none

def parseMembers : Nat → Str → List (Str × J) → Option (J × Str)
  | 0, _, _ => none
  | fuel + 1, s, acc =>
    match s with
    | '"' :: rest =>
      (match parseStringBody rest with
       | none => none
       | some (key, r1) =>
         match skipWs r1 with
         | ':' :: r3 =>
           (match parseVal fuel r3 with
            | none => none
            | some (v, r4) =>
              let acc' := dictInsert acc key v
              match skipWs r4 with
              | ',' :: r6 => parseMembers fuel (skipWs r6) acc'
              | '\x7d' :: r6 => some (J.jobj acc', r6)
              | _ => none)
         | _ => none)
    | _ => none

def parseItems : Nat → Str → List J → Option (J × Str)
  | 0, _, _ => none
  | fuel + 1, s, acc =>
    match parseVal fuel s with
    | none => none
    | some (v, r1) =>
      match skipWs r1 with
      | ',' :: r3 => parseItems fuel r3 (acc ++ [v])
      | ']' :: r3 => some (J.jarr (acc ++ [v]), r3)
      | _ => none

end

/-- Python `json.loads`: the whole input must be one value plus trailing
whitespace. -/
def jsonLoads (s : Str) : Option J :=
  match parseVal (s.length + 2) s with
  | some (v, rest) => if (skipWs rest).isEmpty then some v else none
  | none => none

/-- Models `re.findall(r'(\x7b[\s\S]*?\x7d)', text)`: scanning left to right, each
match runs from a `{` to the first `}` after it, and scanning resumes after
the match, so candidate blocks never contain a closing brace before their
end and a nested object is split apart. -/
def findBlocksGo : Nat → Str → List Str
  | 0, _ => []
  | fuel + 1, s =>
    match s with
    | [] => []
    | c :: t =>
      if c = '\x7b' then
        match t.findIdx? (fun d => d = '\x7d') with
        | some j => (c :: (t.take (j + 1))) :: findBlocksGo fuel (t.drop (j + 1))
        | none => []
      else findBlocksGo fuel t

def findBlocks (s : Str) : List Str := findBlocksGo (s.length + 1) s

/-- Scan a text suffix by suffix, returning the first position where the
matcher succeeds (the leftmost `re` match). -/
def scanFirst {α : Type} (f : Str → Option α) : Str → Option α
  | [] => f []
  | c :: t =>
    match f (c :: t) with
    | some v => some v
    | none => scanFirst f t

/-- A Python `Optional[int]` embedded in a record. -/
def optNum : Option Nat → J
  | some n => J.jnum n
  | none => J.jnull

/-- A Python `Optional[str]` embedded in a record. -/
def optStrJ : Option Str → J
  | some s => J.jstr s
  | none => J.jnull

namespace EvaluatorAgent

/-! Embedding of `backend/app/agent/evaluator_agent.py`.  The generation
call (`self.evaluation_chain.run`) is external and not caught inside
`evaluate_code`, so the parsing part is modelled as a function of the
generated evaluation text. -/

def isColonWs (c : Char) : Bool := c = ':' || isWs c

def isSlashWs (c : Char) : Bool := c = '/' || isWs c

/-- Backtracking of the greedy `(\d+)` against the trailing `[/\s]*10` of
the first score pattern: try the longest digit prefix first. -/
def p1Split (digs rest : Str) : Nat → Option Nat
  | 0 => none
  | k + 1 =>
    if (str "10").isPrefixOf ((digs.drop (k + 1) ++ rest).dropWhile isSlashWs)
    then some (digitsToNat (digs.take (k + 1)))
    else p1Split digs rest k

/-- Match `score_type[:\s]+(\d+)[/\s]*10` at the start of `s` (both sides
already lower-cased, modelling `re.IGNORECASE`). -/
def p1At (st : Str) (s : Str) : Option Nat :=
  if st.isPrefixOf s then
    let r1 := s.drop st.length
    let sep := r1.takeWhile isColonWs
    if sep.isEmpty then none
    else
      let r2 := r1.drop sep.length
      let digs := r2.takeWhile isDigitCh
      if digs.isEmpty then none
      else p1Split digs (r2.drop digs.length) digs.length
  else none

/-- Match `score_type[:\s]+(\d+)[\s]*out of[\s]*10` at the start of `s`. -/
def p2At (st : Str) (s : Str) : Option Nat :=
  if st.isPrefixOf s then
    let r1 := s.drop st.length
    let sep := r1.takeWhile isColonWs
    if sep.isEmpty then none
    else
      let r2 := r1.drop sep.length
      let digs := r2.takeWhile isDigitCh
      if digs.isEmpty then none
      else
        let r4 := (r2.drop digs.length).dropWhile isWs
        if (str "out of").isPrefixOf r4 then
          if (str "10").isPrefixOf ((r4.drop 6).dropWhile isWs)
          then some (digitsToNat digs)
          else none
        else none
  else none

/-- Match `score_type[:\s]*(\d+)` at the start of `s`. -/
def p3At (st : Str) (s : Str) : Option Nat :=
  if st.isPrefixOf s then
    let r2 := (s.drop st.length).dropWhile isColonWs
    let digs := r2.takeWhile isDigitCh
    if digs.isEmpty then none else some (digitsToNat digs)
  else none

/-- Models `EvaluatorAgent._extract_score`: the three patterns are tried in order
over the whole text and the first match of the first succeeding pattern is
returned; absence is `none`, never `0`. -/
def _extract_score (text score_type : Str) : Option Nat :=
  let lt := asciiLower text
  let st := asciiLower score_type
  match scanFirst (p1At st) lt with
  | some v => some v
  | none =>
    match scanFirst (p2At st) lt with
    | some v => some v
    | none => scanFirst (p3At st) lt

/-- Positions where the lookahead `(?=\n\n|\n[A-Z]|$)` of the complexity
pattern holds (with `re.IGNORECASE`, `[A-Z]` also matches lower case; `$`
also matches just before a trailing newline). -/
def boundaryAt (t : Str) (j : Nat) : Bool :=
  match t.drop j with
  | [] => true
  | ['\n'] => true
  | '\n' :: c :: _ => c = '\n' || isAsciiLetter c
  | _ => false

/-- End of the lazy `(.*?)` capture starting at `cs`: the first boundary
position at or after `cs` (with `re.DOTALL` the capture may cross
newlines). -/
def lazyEnd (t : Str) (cs : Nat) : Nat :=
  match (List.range (t.length + 1 - cs)).find? (fun d => boundaryAt t (cs + d)) with
  | some d => cs + d
  | none => t.length

/-- Match `ctype\s*complexity[:\s]+(.*?)(?=\n\n|\n[A-Z]|$)` at position `i`;
`lt` is the lower-cased text, the capture is taken from the original text. -/
def cmplxCapture (text lt ct : Str) (i : Nat) : Option Str :=
  let rest := lt.drop i
  if ct.isPrefixOf rest then
    let r1 := rest.drop ct.length
    let wsl := (r1.takeWhile isWs).length
    let r2 := r1.drop wsl
    if (str "complexity").isPrefixOf r2 then
      let sepl := ((r2.drop 10).takeWhile isColonWs).length
      if sepl = 0 then none
      else
        let cs := i + ct.length + wsl + 10 + sepl
        some ((text.drop cs).take (lazyEnd text cs - cs))
    else none
  else none

/-- Match `O\([^)]+\)` at the start of `s` (case-sensitive, as in the
source). -/
def bigOAt (s : Str) : Option Str :=
  match s with
  | 'O' :: '(' :: rest =>
    let inner := rest.takeWhile (fun c => c ≠ ')')
    if inner.isEmpty then none
    else
      match rest.drop inner.length with
      | ')' :: _ => some ('O' :: '(' :: (inner ++ [')']))
      | _ => none
  | _ => none

/-- Models `EvaluatorAgent._extract_complexity`. -/
def _extract_complexity (text ctype : Str) : Option Str :=
  let lt := asciiLower text
  match firstSome (cmplxCapture text lt ctype) (List.range (text.length + 1)) with
  | none => none
  | some cap =>
    let c := pyStrip cap
    match scanFirst bigOAt c with
    | some o => some o
    | none => some (c.take 100)

def sectionAlts : List Str :=
  [str "suggestions", str "improvements", str "could be improved",
   str "potential improvements"]

/-- Leftmost case-insensitive match of the alternation at position `i`,
first alternative preferred; the matched slice keeps the original case, as
`re.findall` returns it. -/
def altAt (text lt : Str) : List Str → Nat → Option Str
  | [], _ => none
  | a :: rest, i =>
    if a.isPrefixOf (lt.drop i) then some ((text.drop i).take a.length)
    else altAt text lt rest i

/-- Models `re.match(r'^\s*[\-\*\d\.\)\â€¢]\s+', line)`: optional whitespace, one
bullet-class character (the class contains the mojibake bytes of the
source literally), then at least one whitespace character. -/
def lineBullet (line : Str) : Bool :=
  match line.dropWhile isWs with
  | [] => false
  | c :: rest =>
    (c = '-' || c = '*' || c = '.' || c = ')' || c = 'â' || c = '€' || c = '¢'
      || isDigitCh c)
      && !(rest.takeWhile isWs).isEmpty

def suggestionLits : List Str :=
  [str "you could", str "consider", str "try", str "recommend"]

/-- Models `re.findall(rf"lit\s+([^\.]+)", text, re.IGNORECASE)`: non-overlapping
matches left to right; when the greedy `\s+` leaves the capture empty it
backtracks one whitespace character. -/
def findAllLitGo (text lt lit : Str) : Nat → Nat → List Str
  | _, 0 => []
  | i, fuel + 1 =>
    if lt.length < i then []
    else if lit.isPrefixOf (lt.drop i) then
      let r := text.drop (i + lit.length)
      let m := (r.takeWhile isWs).length
      if m = 0 then findAllLitGo text lt lit (i + 1) fuel
      else
        let cap1 := (r.drop m).takeWhile (fun c => c ≠ '.')
        if !cap1.isEmpty then
          cap1 :: findAllLitGo text lt lit (i + lit.length + m + cap1.length) fuel
        else if 2 ≤ m then
          let cap2 := (r.drop (m - 1)).takeWhile (fun c => c ≠ '.')
          cap2 :: findAllLitGo text lt lit (i + lit.length + m - 1 + cap2.length) fuel
        else findAllLitGo text lt lit (i + 1) fuel
    else findAllLitGo text lt lit (i + 1) fuel

def findAllLit (text lt lit : Str) : List Str :=
  findAllLitGo text lt lit 0 (lt.length + 2)

/-- Models `EvaluatorAgent._extract_suggestions`.  Note the source looks the
matched (original-case) section keyword up in the lower-cased text, so a
capitalised keyword falls through to the sentence-fragment fallback. -/
def _extract_suggestions (text : Str) : List Str :=
  let lt := asciiLower text
  let items : List Str :=
    match firstSome (altAt text lt sectionAlts) (List.range (text.length + 1)) with
    | none => []
    | some m =>
      match strFind lt m with
      | none => []
      | some pos =>
        ((splitOnChar '\n' (text.drop pos)).filter lineBullet).map pyStrip
  let fallback : List Str :=
    ((suggestionLits.map (findAllLit text lt)).flatten).map pyStrip
  (if items.isEmpty then fallback else items).take 5

def expected_keys : List Str :=
  [str "correctness", str "feedback", str "time_complexity"]

/-- Models `json.loads` on one candidate block, accepted when it is an object
holding any of the expected keys. -/
def acceptBlock (b : Str) : Option (List (Str × J)) :=
  match jsonLoads b with
  | some (J.jobj kvs) =>
    if expected_keys.any (fun k => objHasKey kvs k) then some kvs else none
  | _ => none

/-- Models `if "feedback" not in evaluation or not evaluation["feedback"]:
evaluation["feedback"] = evaluation_text` — used both on an accepted block
and as the final check before returning. -/
def backfillFeedback (kvs : List (Str × J)) (text : Str) : List (Str × J) :=
  match kvs.find? (fun p => p.1 == str "feedback") with
  | some p => if jFalsy p.2 then dictInsert kvs (str "feedback") (J.jstr text) else kvs
  | none => dictInsert kvs (str "feedback") (J.jstr text)

/-- The loop over `json_matches`: the first block accepted by
`acceptBlock` wins and is returned (with the feedback backfill) at once. -/
def scanBlocks (text : Str) : List Str → Option (List (Str × J))
  | [] => none
  | b :: rest =>
    match acceptBlock b with
    | some kvs => some (backfillFeedback kvs text)
    | none => scanBlocks text rest

/-- Models `EvaluatorAgent.evaluate_code`, as a function of the generated
evaluation text: JSON-block scan first, else the heuristic semi-structured
record, with the final feedback check on the heuristic record (the JSON
path returns early after its own identical backfill). -/
def evaluate_code (evaluation_text : Str) : J :=
  match scanBlocks evaluation_text (findBlocks evaluation_text) with
  | some kvs => J.jobj kvs
  | none =>
    let ev : List (Str × J) :=
      [(str "correctness", optNum (_extract_score evaluation_text (str "correctness"))),
       (str "time_complexity", optStrJ (_extract_complexity evaluation_text (str "time"))),
       (str "space_complexity", optStrJ (_extract_complexity evaluation_text (str "space"))),
       (str "code_quality", optNum (_extract_score evaluation_text (str "quality"))),
       (str "feedback", J.jstr evaluation_text),
       (str "suggestions", J.jarr ((_extract_suggestions evaluation_text).map J.jstr))]
    J.jobj (backfillFeedback ev evaluation_text)

end EvaluatorAgent

namespace FinalEvaluatorAgent

/-! Embedding of `backend/app/agent/final_evaluator_agent.py`.  The
generation call (with its internal memory-`KeyError` retry, which also just
produces text or raises) is modelled as one `Except Str Str` argument:
`Except.error e` is a raised exception with message `e`, which the `except`
clause of `evaluate_interview` turns into the fixed degraded record. -/

/-- Match `(\d+)(?:/10| out of 10)` at the start of `s`; the greedy `\d+`
never needs to give characters back because both alternatives start with a
non-digit. -/
def fscoreAt (s : Str) : Option Nat :=
  let digs := s.takeWhile isDigitCh
  if digs.isEmpty then none
  else
    let rest := s.drop digs.length
    if (str "/10").isPrefixOf rest || (str " out of 10").isPrefixOf rest
    then some (digitsToNat digs)
    else none

/-- Models `FinalEvaluatorAgent._extract_score`: find the metric in the
lower-cased text, search the next 100 characters for `<digits>/10` or
`<digits> out of 10`. -/
def _extract_score (text metric : Str) : Option Nat :=
  let lower_text := asciiLower text
  match strFind lower_text (asciiLower metric) with
  | none => none
  | some idx => scanFirst fscoreAt ((lower_text.drop idx).take 100)

/-- The bullet alternation `(?:\d+\.|\*|\-)` followed by greedy `\s*` and
the lazy line capture `(.*?)(?=\n|$)` (no DOTALL: the capture stops at the
first newline, which stays unconsumed). -/
def tryBullet (s : Str) : Option (Str × Str) :=
  let ds := s.takeWhile isDigitCh
  let bulletLen : Option Nat :=
    if !ds.isEmpty then
      match s.drop ds.length with
      | '.' :: _ => some (ds.length + 1)
      | _ => none
    else
      match s with
      | '*' :: _ => some 1
      | '-' :: _ => some 1
      | _ => none
  match bulletLen with
  | none => none
  | some n =>
    let r2 := (s.drop n).dropWhile isWs
    let cap := r2.takeWhile (fun c => c ≠ '\n')
    some (cap, r2.drop cap.length)

/-- Non-overlapping scan for `(?:^|\n)(?:\d+\.|\*|\-)\s*(.*?)(?=\n|$)`:
a match starts at the beginning of the text or at a newline character
(which the match consumes); scanning resumes after each capture. -/
def bulletGo (text : Str) (atStart : Bool) : Nat → List Str
  | 0 => []
  | fuel + 1 =>
    if atStart then
      match tryBullet text with
      | some (cap, rest) => cap :: bulletGo rest false fuel
      | none => bulletGo text false fuel
    else
      match text with
      | [] => []
      | c :: t =>
        if c = '\n' then
          match tryBullet t with
          | some (cap, rest) => cap :: bulletGo rest false fuel
          | none => bulletGo t false fuel
        else bulletGo t false fuel

def bulletMatches (t : Str) : List Str := bulletGo t true (t.length + 2)

/-- Models `FinalEvaluatorAgent._extract_list`: bullet/numbered lines from the
section onward, else the first three stripped sentences longer than 10
characters. -/
def _extract_list (text section_name : Str) : List Str :=
  let lt := asciiLower text
  match strFind lt (asciiLower section_name) with
  | none => []
  | some idx =>
    let remaining := text.drop idx
    let list_items := bulletMatches remaining
    if !list_items.isEmpty then list_items.map pyStrip
    else
      (((splitOnAny (str ".!?") remaining).map pyStrip).filter
        (fun s => 10 < s.length)).take 3

/-- The `{"decision": ..., "confidence": ...}` record built by
`_extract_recommendation`; the normal path always produces a confidence
string (defaulting to `"medium"`), its `except` arm is unreachable in this
pure embedding. -/
structure Rec where
  decision : Option Str
  confidence : Str
  deriving Repr

def hire_keywords : List Str :=
  [str "hire", str "recommend", str "suitable", str "qualified"]

def no_hire_keywords : List Str :=
  [str "not hire", str "do not hire", str "not recommend", str "unsuitable",
   str "not qualified"]

def confidence_keywords : List Str :=
  [str "confident", str "confidence", str "strongly", str "hesitant",
   str "uncertain"]

def negationWords : List Str :=
  [str "not ", str "low ", str "hesitant", str "uncertain"]

/-- Models `FinalEvaluatorAgent._extract_recommendation`.  Conflicts between hire
and no-hire keywords are resolved by comparing the `rfind` position of the
present keywords of each set; the confidence loop runs over all keywords,
each present one overwriting the level via its first containing
sentence. -/
def _extract_recommendation (text : Str) : Rec :=
  let lower_text := asciiLower text
  let is_hire := hire_keywords.any (fun k => containsSub lower_text k)
  let is_no_hire := no_hire_keywords.any (fun k => containsSub lower_text k)
  let decision : Option Str :=
    if is_hire && is_no_hire then
      let last_hire_idx :=
        pyMax ((hire_keywords.filter (fun k => containsSub lower_text k)).map
          (fun k => pyRfind lower_text k))
      let last_no_hire_idx :=
        pyMax ((no_hire_keywords.filter (fun k => containsSub lower_text k)).map
          (fun k => pyRfind lower_text k))
      some (if last_no_hire_idx > last_hire_idx then str "no_hire" else str "hire")
    else if is_hire then some (str "hire")
    else if is_no_hire then some (str "no_hire")
    else none
  let confidence_level : Option Str :=
    confidence_keywords.foldl (fun acc kw =>
      if containsSub lower_text kw then
        match (splitOnAny (str ".!?") text).find?
            (fun sent => containsSub (asciiLower sent) kw) with
        | some sent =>
          some (if negationWords.any (fun n => containsSub (asciiLower sent) n)
                then str "low" else str "high")
        | none => acc
      else acc) none
  { decision := decision, confidence := confidence_level.getD (str "medium") }

def recToJ (r : Rec) : J :=
  J.jobj [(str "decision", match r.decision with
           | some s => J.jstr s
           | none => J.jnull),
          (str "confidence", J.jstr r.confidence)]

def expected_keys : List Str :=
  [str "technical_skill", str "overall_rating", str "recommendation"]

def acceptBlock (b : Str) : Option (List (Str × J)) :=
  match jsonLoads b with
  | some (J.jobj kvs) =>
    if expected_keys.any (fun k => objHasKey kvs k) then some kvs else none
  | _ => none

/-- Models `if "detailed_feedback" not in evaluation or not
evaluation["detailed_feedback"]: evaluation["detailed_feedback"] =
evaluation_text` on an accepted block. -/
def backfillDetailed (kvs : List (Str × J)) (text : Str) : List (Str × J) :=
  match kvs.find? (fun p => p.1 == str "detailed_feedback") with
  | some p =>
    if jFalsy p.2 then dictInsert kvs (str "detailed_feedback") (J.jstr text)
    else kvs
  | none => dictInsert kvs (str "detailed_feedback") (J.jstr text)

def scanBlocks (text : Str) : List Str → Option (List (Str × J))
  | [] => none
  | b :: rest =>
    match acceptBlock b with
    | some kvs => some (backfillDetailed kvs text)
    | none => scanBlocks text rest

def no_feedback_placeholder : Str :=
  str "No detailed feedback could be generated for this interview."

/-- The final check before returning: replace a missing or falsy
`detailed_feedback` by the literal placeholder. -/
def ensureDetailed (kvs : List (Str × J)) : List (Str × J) :=
  match kvs.find? (fun p => p.1 == str "detailed_feedback") with
  | some p =>
    if jFalsy p.2 then
      dictInsert kvs (str "detailed_feedback") (J.jstr no_feedback_placeholder)
    else kvs
  | none => dictInsert kvs (str "detailed_feedback") (J.jstr no_feedback_placeholder)

def error_lead : Str :=
  str "Unable to generate a complete evaluation due to a technical issue. The system encountered the following error: "

/-- Models `FinalEvaluatorAgent.evaluate_interview` as a function of the outcome
of the generation call: the `except` arm builds the fixed degraded record;
the success arm scans for JSON blocks (early return) and otherwise builds
the heuristic record; both non-early paths end in the placeholder check. -/
def evaluate_interview (gen : Except Str Str) : J :=
  match gen with
  | Except.error e =>
    let ev : List (Str × J) :=
      [(str "detailed_feedback", J.jstr (error_lead ++ e)),
       (str "technical_skill", J.jnum 5),
       (str "problem_solving", J.jnum 5),
       (str "communication", J.jnum 5),
       (str "overall_rating", J.jnum 5),
       (str "strengths",
        J.jarr [J.jstr (str "Could not analyze strengths due to system error")]),
       (str "areas_for_improvement",
        J.jarr [J.jstr (str "Could not analyze areas for improvement due to system error")]),
       (str "recommendation",
        J.jobj [(str "decision", J.jstr (str "undecided")),
                (str "confidence", J.jstr (str "low"))])]
    J.jobj (ensureDetailed ev)
  | Except.ok evaluation_text =>
    match scanBlocks evaluation_text (findBlocks evaluation_text) with
    | some kvs => J.jobj kvs
    | none =>
      let ev : List (Str × J) :=
        [(str "technical_skill", optNum (_extract_score evaluation_text (str "technical"))),
         (str "problem_solving", optNum (_extract_score evaluation_text (str "problem"))),
         (str "communication", optNum (_extract_score evaluation_text (str "communicat"))),
         (str "overall_rating", optNum (_extract_score evaluation_text (str "overall"))),
         (str "strengths", J.jarr ((_extract_list evaluation_text (str "strength")).map J.jstr)),
         (str "areas_for_improvement",
          J.jarr ((_extract_list evaluation_text (str "improv")).map J.jstr)),
         (str "recommendation", recToJ (_extract_recommendation evaluation_text)),
         (str "detailed_feedback", J.jstr evaluation_text)]
      J.jobj (ensureDetailed ev)

end FinalEvaluatorAgent

/-! ## Interview stage controller (`interviewer_agent.py`) -/

inductive InterviewStage where
  | INTRODUCTION
  | RESUME_DISCUSSION
  | TECHNICAL_QUESTIONS
  | CODING_PROBLEM
  | CODE_EVALUATION
  | FOLLOW_UP
  | FINAL_EVALUATION
  deriving DecidableEq, BEq, Repr

/-- One transcript entry: `{"stage": ..., "content": ...}`, with the
optional `problem_statement` key attached by `add_evaluation_to_notes`. -/
structure NoteEntry where
  stage : InterviewStage
  content : Str
  problem_statement : Option Str
  deriving DecidableEq, Repr

structure InterviewerState where
  interview_notes : List NoteEntry
  current_stage : InterviewStage
  deriving Repr

namespace InterviewerAgent

/-- Models `InterviewerAgent.get_interview_notes`: returns the transcript list
itself. -/
def get_interview_notes (st : InterviewerState) : List NoteEntry :=
  st.interview_notes

/-- The customization step of `present_coding_problem` (lines 89-109):
given the base generated `response` and the rewritten `customized_intro`,
splice the intro in front of the `"Problem:"` marker only when the intro
has fewer than 50 words and `response.find("Problem:")` is strictly
positive; a `context` that is empty or starts (lower-cased) with
`"i could not extract"` skips the customization entirely. -/
def present_coding_problem_text (context response customized_intro : Str) : Str :=
  if context ≠ [] && !(str "i could not extract").isPrefixOf (asciiLower context) then
    if (pySplitWs customized_intro).length < 50 then
      match strFind response (str "Problem:") with
      | some problem_start =>
        if 0 < problem_start then
          customized_intro ++ str "\n\n" ++ response.drop problem_start
        else response
      | none => response
    else response
  else response

/-- Models `InterviewerAgent.handle_candidate_response`: the candidate entry is
appended to the transcript first; only then is the coordinator invoked.
`process` abstracts `coordinator.process_response`, which may return the
next message together with the entries it appends through the interviewer,
or raise; the `add_to_memory` call does not touch `interview_notes`. -/
def handle_candidate_response (st : InterviewerState) (response : Str)
    (process : InterviewStage → Str → List NoteEntry → Except Str (Str × List NoteEntry)) :
    Except Str Str × InterviewerState :=
  let entry : NoteEntry :=
    { stage := st.current_stage, content := str "Candidate: " ++ response,
      problem_statement := none }
  let notes1 := st.interview_notes ++ [entry]
  match process st.current_stage response notes1 with
  | Except.error e => (Except.error e, { st with interview_notes := notes1 })
  | Except.ok (out, extra) =>
    (Except.ok out, { st with interview_notes := notes1 ++ extra })

end InterviewerAgent

/-! ## Coordinator (`coordinator_agent.py`) -/

/-- One element of `interview_context["code_submissions"]`. -/
structure Submission where
  problem : Str
  code : Str
  evaluation : J

/-- The mutable per-session `interview_context` dictionary (the fields the
claims touch; `current_code` is absent until first assigned). -/
structure InterviewContext where
  candidate_name : Str
  role : Str
  difficulty : Str
  background : Str
  current_problem : Str
  code_submissions : List Submission
  current_code : Option Str

namespace CoordinatorAgent

def default_topics : List Str :=
  [str "algorithms", str "data structures", str "system design",
   str "concurrency"]

/-- Models `CoordinatorAgent._derive_topics_from_responses`: the conversation
string is only prompt material, so the generation call is abstracted by
`gen`; on a non-empty transcript a successful call yields the stripped
comma-split topics followed by the defaults, and a raised call (or an
empty transcript, where no call happens) yields the defaults. -/
def _derive_topics_from_responses (interview_notes : List NoteEntry)
    (_response : Str) (gen : Except Str Str) : List Str :=
  if 0 < interview_notes.length then
    match gen with
    | Except.ok topics_text =>
      let topics := (splitOnChar ',' topics_text).map pyStrip
      if 0 < topics.length then topics ++ default_topics else default_topics
    | Except.error _ => default_topics
  else default_topics

def code_indicators : List Str :=
  [str "```", str "def ", str "function ", str "class ", str "import ",
   str "from ", str "#include", str "public class", str "int ", str "const ",
   str "let ", str "var ", str "for(", str "for (", str "while(", str "if(",
   str "else\x7b", str "return "]

/-- Models `CoordinatorAgent._looks_like_code`. -/
def _looks_like_code (text : Str) : Bool :=
  code_indicators.any (fun indicator => containsSub text indicator)

/-- Models `CoordinatorAgent._get_current_problem`: most recent CODING_PROBLEM
entry, scanning the transcript backwards. -/
def _get_current_problem (interview_notes : List NoteEntry) : Str :=
  match interview_notes.reverse.find?
      (fun note => note.stage == InterviewStage.CODING_PROBLEM) with
  | some note => note.content
  | none => []

/-- Result of one `process_response` step at stage CODING_PROBLEM. -/
structure CodingStepResult where
  output : Str
  context : InterviewContext
  stage : InterviewStage
  notes : List NoteEntry

/-- The CODING_PROBLEM branch of `CoordinatorAgent.process_response`
(lines 78-121).  `evaluation` abstracts the record returned by
`code_evaluator.evaluate_code` (see `EvaluatorAgent.evaluate_code`), and
`guidance` the text of the free-form hint generation call of the non-code
branch; in that branch nothing else happens: the guidance text is returned
verbatim and context, stage and transcript are untouched. -/
def process_response_coding_problem (ctx : InterviewContext)
    (stage : InterviewStage) (notes : List NoteEntry) (response : Str)
    (evaluation : J) (guidance : Str) : CodingStepResult :=
  if _looks_like_code response then
    let ctx1 := { ctx with current_code := some response }
    let problem_statement := _get_current_problem notes
    let ctx2 :=
      if problem_statement ≠ [] then { ctx1 with current_problem := problem_statement }
      else ctx1
    let ctx3 := { ctx2 with code_submissions := ctx2.code_submissions ++
      [{ problem := ctx2.current_problem, code := response, evaluation := evaluation }] }
    let evaluation_text : Str :=
      match objGet evaluation (str "feedback") with
      | some (J.jstr s) => s
      | _ => []
    let note : NoteEntry :=
      { stage := InterviewStage.CODE_EVALUATION, content := evaluation_text,
        problem_statement :=
          if ctx2.current_problem ≠ [] then some ctx2.current_problem else none }
    { output := evaluation_text, context := ctx3,
      stage := InterviewStage.CODE_EVALUATION, notes := notes ++ [note] }
  else
    { output := guidance, context := ctx, stage := stage, notes := notes }

/-- Which way the CODE_EVALUATION branch went. -/
inductive CodeEvalPath where
  | second_problem
  | final_evaluation
  deriving DecidableEq, Repr

/-- The CODE_EVALUATION branch of `CoordinatorAgent.process_response`
(lines 123-146): with fewer than one recorded submission and more than one
derived topic, a transition message plus a second problem is produced;
in every other case `_transition_to_final_evaluation` runs.  `topics` is
the `_derive_topics_from_responses` result and the three text arguments
abstract the generation calls of the two paths. -/
def process_response_code_evaluation (ctx : InterviewContext)
    (topics : List Str) (transition_message problem_text final_text : Str) :
    Str × CodeEvalPath :=
  if ctx.code_submissions.length < 1 then
    if 1 < topics.length then
      (transition_message ++ str "\n\n" ++ problem_text, CodeEvalPath.second_problem)
    else (final_text, CodeEvalPath.final_evaluation)
  else (final_text, CodeEvalPath.final_evaluation)

end CoordinatorAgent

/-! ## Supporting lemmas -/

theorem splitOnAny_ne_nil (delims s : Str) : splitOnAny delims s ≠ [] := by
  cases s with
  | nil => simp [splitOnAny]
  | cons c t =>
    simp only [splitOnAny]
    split
    · simp
    · split <;> simp

theorem strFind_some_prefix {s sub : Str} {i : Nat}
    (h : strFind s sub = some i) : sub.isPrefixOf (s.drop i) = true := by
  unfold strFind at h
  simpa using List.find?_some h

theorem le_foldl_max {α : Type} [LinearOrder α] (l : List α) (b : α) :
    b ≤ l.foldl max b := by
  induction l generalizing b with
  | nil => exact le_refl b
  | cons x xs ih => exact le_trans (le_max_left b x) (ih (max b x))

theorem mem_le_foldl_max {α : Type} [LinearOrder α] {a : α} {l : List α}
    (h : a ∈ l) (b : α) : a ≤ l.foldl max b := by
  induction l generalizing b with
  | nil => cases h
  | cons x xs ih =>
    rcases List.mem_cons.mp h with rfl | hx
    · exact le_trans (le_max_right b a) (le_foldl_max xs (max b a))
    · exact ih hx (max b x)

theorem foldl_max_mem {α : Type} [LinearOrder α] (l : List α) (b : α) :
    l.foldl max b = b ∨ l.foldl max b ∈ l := by
  induction l generalizing b with
  | nil => left; rfl
  | cons x xs ih =>
    rcases ih (max b x) with h | h
    · rcases max_choice b x with hb | hx
      · left; rw [List.foldl_cons, h, hb]
      · right; rw [List.foldl_cons, h, hx]; exact List.mem_cons_self x xs
    · right; exact List.mem_cons_of_mem x h

theorem mem_le_pyMax {a : Int} {l : List Int} (h : a ∈ l) : a ≤ pyMax l := by
  cases l with
  | nil => cases h
  | cons x xs =>
    rcases List.mem_cons.mp h with rfl | hx
    · exact le_foldl_max xs a
    · exact mem_le_foldl_max hx x

theorem pyMax_mem {l : List Int} (h : l ≠ []) : pyMax l ∈ l := by
  cases l with
  | nil => exact absurd rfl h
  | cons x xs =>
    rcases foldl_max_mem xs x with h1 | h1
    · simp only [pyMax, h1]; exact List.mem_cons_self x xs
    · simp only [pyMax]; exact List.mem_cons_of_mem x h1

theorem mem_occurrences_iff {s sub : Str} {i : Nat} :
    i ∈ occurrences s sub ↔ i < s.length + 1 ∧ sub.isPrefixOf (s.drop i) = true := by
  simp [occurrences, List.mem_filter, List.mem_range]

theorem containsSub_of_mem_occurrences {s sub : Str} {i : Nat}
    (h : i ∈ occurrences s sub) : containsSub s sub = true := by
  induction s generalizing i with
  | nil =>
    rcases mem_occurrences_iff.mp h with ⟨_, hpre⟩
    simpa [containsSub] using hpre
  | cons c t ih =>
    rcases mem_occurrences_iff.mp h with ⟨hi, hpre⟩
    cases i with
    | zero =>
      simp only [List.drop_zero] at hpre
      simp [containsSub, hpre]
    | succ j =>
      have hj : j ∈ occurrences t sub := by
        refine mem_occurrences_iff.mpr ⟨?_, ?_⟩
        · simp only [List.length_cons] at hi; omega
        · simpa using hpre
      simp [containsSub, ih hj]

theorem exists_occurrence_of_containsSub {s sub : Str}
    (h : containsSub s sub = true) : ∃ i, i ∈ occurrences s sub := by
  induction s with
  | nil =>
    exact ⟨0, mem_occurrences_iff.mpr ⟨by simp, by simpa [containsSub] using h⟩⟩
  | cons c t ih =>
    rw [containsSub, Bool.or_eq_true] at h
    rcases h with h | h
    · exact ⟨0, mem_occurrences_iff.mpr ⟨by simp, by simpa using h⟩⟩
    · obtain ⟨j, hj⟩ := ih h
      rcases mem_occurrences_iff.mp hj with ⟨hj1, hj2⟩
      refine ⟨j + 1, mem_occurrences_iff.mpr ⟨?_, ?_⟩⟩
      · simp only [List.length_cons]; omega
      · simpa using hj2

theorem occ_shift {s a h b : Str} {i : Nat}
    (hm : i ∈ occurrences s (a ++ h ++ b)) :
    i + a.length ∈ occurrences s h := by
  rcases mem_occurrences_iff.mp hm with ⟨hi, hpre⟩
  have hpre' : (a ++ h ++ b) <+: s.drop i := List.isPrefixOf_iff_prefix.mp hpre
  obtain ⟨r, hr⟩ := hpre'
  have hdrop : s.drop (i + a.length) = h ++ (b ++ r) := by
    have h1 : s.drop (i + a.length) = (s.drop i).drop a.length := by
      rw [List.drop_drop, Nat.add_comm]
    rw [h1, ← hr]
    have h2 : a ++ h ++ b ++ r = a ++ (h ++ (b ++ r)) := by
      simp [List.append_assoc]
    rw [h2, List.drop_left]
  have hlen : i + a.length < s.length + 1 := by
    have h1 : (s.drop i).length = s.length - i := List.length_drop i s
    have h2 : (a ++ h ++ b ++ r).length = (s.drop i).length := by rw [hr]
    simp only [List.length_append] at h2
    omega
  refine mem_occurrences_iff.mpr ⟨hlen, ?_⟩
  rw [hdrop]
  exact List.isPrefixOf_iff_prefix.mpr ⟨b ++ r, rfl⟩

theorem pyRfind_mem {t k : Str} (h : containsSub t k = true) :
    ∃ i ∈ occurrences t k, pyRfind t k = Int.ofNat i := by
  obtain ⟨i0, hi0⟩ := exists_occurrence_of_containsSub h
  rcases foldl_max_mem ((occurrences t k).map Int.ofNat) (-1) with h1 | h1
  · exfalso
    have h2 := mem_le_foldl_max (List.mem_map_of_mem Int.ofNat hi0) (-1 : Int)
    rw [h1] at h2
    have h3 : (0 : Int) ≤ Int.ofNat i0 := Int.ofNat_nonneg i0
    omega
  · obtain ⟨i, hi, hEq⟩ := List.mem_map.mp h1
    exact ⟨i, hi, hEq.symm⟩

theorem ofNat_le_pyRfind {t k : Str} {i : Nat} (h : i ∈ occurrences t k) :
    Int.ofNat i ≤ pyRfind t k :=
  mem_le_foldl_max (List.mem_map_of_mem Int.ofNat h) (-1)

/-- Each no-hire keyword of `_extract_recommendation` contains a hire
keyword as a strict suffix part, at least one character after its start. -/
theorem no_hire_embed {k : Str} (hk : k ∈ FinalEvaluatorAgent.no_hire_keywords) :
    ∃ a h b, k = a ++ h ++ b ∧ h ∈ FinalEvaluatorAgent.hire_keywords ∧
      1 ≤ a.length := by
  simp only [FinalEvaluatorAgent.no_hire_keywords, List.mem_cons,
    List.not_mem_nil, or_false] at hk
  rcases hk with rfl | rfl | rfl | rfl | rfl
  · exact ⟨str "not ", str "hire", [], by decide, by decide, by decide⟩
  · exact ⟨str "do not ", str "hire", [], by decide, by decide, by decide⟩
  · exact ⟨str "not ", str "recommend", [], by decide, by decide, by decide⟩
  · exact ⟨str "un", str "suitable", [], by decide, by decide, by decide⟩
  · exact ⟨str "not ", str "qualified", [], by decide, by decide, by decide⟩

/-! ## Claims -/

/-- C2: at stage CODE_EVALUATION, any non-empty `code_submissions` list
forces the transition-to-final-evaluation path, and the second-problem
branch is taken exactly when the list is empty and more than one derived
topic exists. -/
theorem c2_code_evaluation_branch (ctx : InterviewContext) (topics : List Str)
    (tm pt ft : Str) :
    (ctx.code_submissions ≠ [] →
      (CoordinatorAgent.process_response_code_evaluation ctx topics tm pt ft).2 =
        CoordinatorAgent.CodeEvalPath.final_evaluation) ∧
    ((CoordinatorAgent.process_response_code_evaluation ctx topics tm pt ft).2 =
        CoordinatorAgent.CodeEvalPath.second_problem ↔
      ctx.code_submissions = [] ∧ 1 < topics.length) := by
  rcases hcs : ctx.code_submissions with _ | ⟨s, rest⟩ <;>
    by_cases ht : 1 < topics.length <;>
      simp [CoordinatorAgent.process_response_code_evaluation, hcs, ht]

theorem c2_witness :
    (CoordinatorAgent.process_response_code_evaluation
      ⟨[], [], [], [], [], [⟨[], [], J.jnull⟩], none⟩
      [str "arrays", str "graphs"] [] [] []).2 =
      CoordinatorAgent.CodeEvalPath.final_evaluation ∧
    (CoordinatorAgent.process_response_code_evaluation
      ⟨[], [], [], [], [], [], none⟩
      [str "arrays", str "graphs"] [] [] []).2 =
      CoordinatorAgent.CodeEvalPath.second_problem := by
  constructor
  · exact (c2_code_evaluation_branch _ _ _ _ _).1 (by simp)
  · exact (c2_code_evaluation_branch _ _ _ _ _).2.mpr ⟨rfl, by simp⟩

/-- C6: `_derive_topics_from_responses` always returns a non-empty list;
on a raised generation call (which only happens on a non-empty transcript)
it returns exactly the four default topics, and on success the four
default topics are appended after the derived ones. -/
theorem c6_derive_topics (interview_notes : List NoteEntry) (response : Str)
    (gen : Except Str Str) :
    CoordinatorAgent._derive_topics_from_responses interview_notes response gen ≠ [] ∧
    (∀ e, interview_notes ≠ [] → gen = Except.error e →
      CoordinatorAgent._derive_topics_from_responses interview_notes response gen =
        CoordinatorAgent.default_topics) ∧
    (∀ t, interview_notes ≠ [] → gen = Except.ok t →
      CoordinatorAgent._derive_topics_from_responses interview_notes response gen =
        (splitOnChar ',' t).map pyStrip ++ CoordinatorAgent.default_topics) := by
  cases interview_notes with
  | nil =>
    refine ⟨by simp [CoordinatorAgent._derive_topics_from_responses,
      CoordinatorAgent.default_topics], ?_, ?_⟩
    · intro e hne _; exact absurd rfl hne
    · intro t hne _; exact absurd rfl hne
  | cons n ns =>
    cases gen with
    | error e =>
      refine ⟨?_, ?_, ?_⟩
      · simp [CoordinatorAgent._derive_topics_from_responses,
          CoordinatorAgent.default_topics]
      · intro e' _ _
        simp [CoordinatorAgent._derive_topics_from_responses]
      · intro t _ h; exact absurd h (by simp)
    | ok t =>
      have hsp : (splitOnChar ',' t).map pyStrip ≠ [] := by
        have := splitOnAny_ne_nil [','] t
        simpa [splitOnChar] using this
      have hlen : 0 < ((splitOnChar ',' t).map pyStrip).length :=
        List.length_pos.mpr hsp
      refine ⟨?_, ?_, ?_⟩
      · simp only [CoordinatorAgent._derive_topics_from_responses,
          List.length_cons, Nat.succ_pos, if_true, hlen, if_pos]
        intro hcontra
        exact hsp (List.append_eq_nil.mp hcontra).1
      · intro e _ h; exact absurd h (by simp)
      · intro t' _ h
        injection h with he
        subst he
        simp [CoordinatorAgent._derive_topics_from_responses, hlen]

theorem c6_witness :
    CoordinatorAgent._derive_topics_from_responses
      [⟨InterviewStage.INTRODUCTION, str "Hello", none⟩] (str "ok")
      (Except.error (str "timeout")) = CoordinatorAgent.default_topics ∧
    CoordinatorAgent._derive_topics_from_responses
      [⟨InterviewStage.INTRODUCTION, str "Hello", none⟩] (str "ok")
      (Except.ok (str "arrays, sorting")) =
      (splitOnChar ',' (str "arrays, sorting")).map pyStrip ++
        CoordinatorAgent.default_topics := by
  constructor
  · exact (c6_derive_topics _ _ _).2.1 (str "timeout") (by simp) rfl
  · exact (c6_derive_topics _ _ _).2.2 (str "arrays, sorting") (by simp) rfl

/-- C7: a response containing none of the code-indicator substrings is not
classified as code, and the CODING_PROBLEM branch then returns the
guidance text verbatim, leaving context (in particular
`code_submissions`), stage and transcript unchanged, independently of the
evaluator's record. -/
theorem c7_non_code_branch (ctx : InterviewContext) (stage : InterviewStage)
    (notes : List NoteEntry) (response : Str) (evaluation : J) (guidance : Str)
    (h : ∀ ind ∈ CoordinatorAgent.code_indicators, containsSub response ind = false) :
    CoordinatorAgent._looks_like_code response = false ∧
    CoordinatorAgent.process_response_coding_problem ctx stage notes response
        evaluation guidance =
      { output := guidance, context := ctx, stage := stage, notes := notes } := by
  have hl : CoordinatorAgent._looks_like_code response = false := by
    unfold CoordinatorAgent._looks_like_code
    rw [List.any_eq_false]
    intro ind hind
    simp [h ind hind]
  refine ⟨hl, ?_⟩
  unfold CoordinatorAgent.process_response_coding_problem
  rw [hl]
  simp

theorem c7_witness :
    CoordinatorAgent._looks_like_code
      (str "Could you clarify the expected output size") = false ∧
    CoordinatorAgent.process_response_coding_problem
      ⟨[], [], [], [], [], [], none⟩ InterviewStage.CODING_PROBLEM []
      (str "Could you clarify the expected output size") J.jnull
      (str "Take your time and think aloud.") =
      { output := str "Take your time and think aloud.",
        context := ⟨[], [], [], [], [], [], none⟩,
        stage := InterviewStage.CODING_PROBLEM, notes := [] } := by
  have h := c7_non_code_branch ⟨[], [], [], [], [], [], none⟩
    InterviewStage.CODING_PROBLEM []
    (str "Could you clarify the expected output size") J.jnull
    (str "Take your time and think aloud.") (by decide)
  exact ⟨h.1, h.2⟩

/-- C3 counterexample: in `"hire is tempting but I do not recommend"` the
hire keyword `"hire"` occurs at position 0 and the no-hire keyword
`"not recommend"` at the strictly later position 26, yet the decision is
`"hire"`, not `"no_hire"`: the hire keyword `"recommend"` sits inside
`"not recommend"` four characters further right, so the last hire
occurrence always wins the comparison. -/
theorem c3_counterexample :
    containsSub (asciiLower (str "hire is tempting but I do not recommend"))
      (str "hire") = true ∧
    strFind (asciiLower (str "hire is tempting but I do not recommend"))
      (str "hire") = some 0 ∧
    strFind (asciiLower (str "hire is tempting but I do not recommend"))
      (str "not recommend") = some 26 ∧
    (FinalEvaluatorAgent._extract_recommendation
      (str "hire is tempting but I do not recommend")).decision =
      some (str "hire") :=
  ⟨rfl, rfl, rfl, rfl⟩

/-- C3 amended: whenever any no-hire keyword occurs in the lower-cased
text, `_extract_recommendation` returns decision `"hire"`: every no-hire
keyword embeds a hire keyword at a strictly later character position, so
the last hire-keyword occurrence is always strictly later than the last
no-hire-keyword occurrence and the conflict branch resolves to `"hire"`
(`"no_hire"` is unreachable). -/
theorem c3_no_hire_unreachable (text : Str)
    (h : FinalEvaluatorAgent.no_hire_keywords.any
      (fun k => containsSub (asciiLower text) k) = true) :
    (FinalEvaluatorAgent._extract_recommendation text).decision =
      some (str "hire") := by
  obtain ⟨k0, hk0mem, hk0⟩ := List.any_eq_true.mp h
  have hk0c : containsSub (asciiLower text) k0 = true := hk0
  obtain ⟨a0, h0, b0, hdec0, hmem0, _⟩ := no_hire_embed hk0mem
  obtain ⟨i0, hi0⟩ := exists_occurrence_of_containsSub hk0c
  rw [hdec0] at hi0
  have hch0 : containsSub (asciiLower text) h0 = true :=
    containsSub_of_mem_occurrences (occ_shift hi0)
  have hIsHire : FinalEvaluatorAgent.hire_keywords.any
      (fun k => containsSub (asciiLower text) k) = true :=
    List.any_eq_true.mpr ⟨h0, hmem0, hch0⟩
  have hfilterK : k0 ∈ FinalEvaluatorAgent.no_hire_keywords.filter
      (fun k => containsSub (asciiLower text) k) :=
    List.mem_filter.mpr ⟨hk0mem, hk0⟩
  have hnhne : (FinalEvaluatorAgent.no_hire_keywords.filter
      (fun k => containsSub (asciiLower text) k)).map
      (fun k => pyRfind (asciiLower text) k) ≠ [] := by
    intro hc
    rw [List.map_eq_nil_iff] at hc
    rw [hc] at hfilterK
    cases hfilterK
  obtain ⟨kst, hkstMem, hkstEq0⟩ := List.mem_map.mp (pyMax_mem hnhne)
  have hkstEq : pyRfind (asciiLower text) kst =
      pyMax ((FinalEvaluatorAgent.no_hire_keywords.filter
        (fun k => containsSub (asciiLower text) k)).map
        (fun k => pyRfind (asciiLower text) k)) := hkstEq0
  have hkstNH : kst ∈ FinalEvaluatorAgent.no_hire_keywords :=
    (List.mem_filter.mp hkstMem).1
  have hkstC : containsSub (asciiLower text) kst = true :=
    (List.mem_filter.mp hkstMem).2
  obtain ⟨a1, h1, b1, hdec1, hmem1, ha1⟩ := no_hire_embed hkstNH
  obtain ⟨iS, hiSmem, hiSval⟩ := pyRfind_mem hkstC
  rw [hdec1] at hiSmem
  have hoccH := occ_shift hiSmem
  have hchH : containsSub (asciiLower text) h1 = true :=
    containsSub_of_mem_occurrences hoccH
  have hle1 : Int.ofNat (iS + a1.length) ≤ pyRfind (asciiLower text) h1 :=
    ofNat_le_pyRfind hoccH
  have hInHires : pyRfind (asciiLower text) h1 ∈
      (FinalEvaluatorAgent.hire_keywords.filter
        (fun k => containsSub (asciiLower text) k)).map
        (fun k => pyRfind (asciiLower text) k) :=
    List.mem_map_of_mem _ (List.mem_filter.mpr ⟨hmem1, hchH⟩)
  have hle2 := mem_le_pyMax hInHires
  have hlt : pyMax ((FinalEvaluatorAgent.no_hire_keywords.filter
        (fun k => containsSub (asciiLower text) k)).map
        (fun k => pyRfind (asciiLower text) k)) <
      pyMax ((FinalEvaluatorAgent.hire_keywords.filter
        (fun k => containsSub (asciiLower text) k)).map
        (fun k => pyRfind (asciiLower text) k)) := by
    rw [← hkstEq, hiSval]
    have hstep : Int.ofNat iS < Int.ofNat (iS + a1.length) :=
      Int.ofNat_lt.mpr (by omega)
    exact lt_of_lt_of_le (lt_of_lt_of_le hstep hle1) hle2
  have hnot : ¬ (pyMax ((FinalEvaluatorAgent.no_hire_keywords.filter
        (fun k => containsSub (asciiLower text) k)).map
        (fun k => pyRfind (asciiLower text) k)) >
      pyMax ((FinalEvaluatorAgent.hire_keywords.filter
        (fun k => containsSub (asciiLower text) k)).map
        (fun k => pyRfind (asciiLower text) k))) :=
    not_lt.mpr (le_of_lt hlt)
  simp only [FinalEvaluatorAgent._extract_recommendation]
  rw [hIsHire, h]
  simp only [Bool.and_self, if_true]
  rw [if_neg hnot]

theorem c3_witness :
    FinalEvaluatorAgent.no_hire_keywords.any
      (fun k => containsSub
        (asciiLower (str "We should hire them. Overall I would not recommend.")) k) =
      true ∧
    (FinalEvaluatorAgent._extract_recommendation
      (str "We should hire them. Overall I would not recommend.")).decision =
      some (str "hire") :=
  ⟨by decide, c3_no_hire_unreachable _ (by decide)⟩

/-- C5 counterexample: the text
`{"correctness": 5, "extra": {"a": 1}}` is itself a valid balanced-brace
JSON object block with key `correctness`, but the non-greedy scan cuts the
candidate at the first closing brace, no candidate parses, and the
heuristic record (whose `correctness` is null, not 5) is returned instead
of the parsed structure. -/
theorem c5_counterexample :
    jsonLoads (str "\x7b\"correctness\": 5, \"extra\": \x7b\"a\": 1\x7d\x7d") =
      some (J.jobj [(str "correctness", J.jnum 5),
                    (str "extra", J.jobj [(str "a", J.jnum 1)])]) ∧
    objHasKey [(str "correctness", J.jnum 5),
               (str "extra", J.jobj [(str "a", J.jnum 1)])]
      (str "correctness") = true ∧
    objGet (EvaluatorAgent.evaluate_code
        (str "\x7b\"correctness\": 5, \"extra\": \x7b\"a\": 1\x7d\x7d"))
      (str "correctness") = some J.jnull ∧
    (J.jnull : J) ≠ J.jnum 5 :=
  ⟨rfl, rfl, rfl, fun hc => J.noConfusion hc⟩

/-- C5 amended: for every generated text, if the brace-block scan (which
cuts every candidate at the first closing brace, so blocks with nested
braces never parse) yields a candidate that parses as a JSON object
containing one of the keys `correctness`, `feedback` or `time_complexity`,
then `evaluate_code` returns exactly the first such parsed structure,
modulo backfilling a missing or falsy `feedback` field with the full raw
text. -/
theorem c5_first_accepted_block (text : Str) (pre : List Str) (b : Str)
    (post : List Str) (kvs : List (Str × J))
    (hblocks : findBlocks text = pre ++ b :: post)
    (hpre : ∀ b' ∈ pre, EvaluatorAgent.acceptBlock b' = none)
    (hb : EvaluatorAgent.acceptBlock b = some kvs) :
    EvaluatorAgent.evaluate_code text =
      J.jobj (EvaluatorAgent.backfillFeedback kvs text) := by
  have hscan : ∀ (l1 : List Str), (∀ b' ∈ l1, EvaluatorAgent.acceptBlock b' = none) →
      EvaluatorAgent.scanBlocks text (l1 ++ b :: post) =
        some (EvaluatorAgent.backfillFeedback kvs text) := by
    intro l1 h1
    induction l1 with
    | nil => simp [EvaluatorAgent.scanBlocks, hb]
    | cons x xs ih =>
      have hx := h1 x (List.mem_cons_self x xs)
      simp only [List.cons_append, EvaluatorAgent.scanBlocks, hx]
      exact ih (fun b' hb' => h1 b' (List.mem_cons_of_mem x hb'))
  unfold EvaluatorAgent.evaluate_code
  rw [hblocks, hscan pre hpre]

theorem c5_witness :
    EvaluatorAgent.evaluate_code
      (str "Result: \x7b\"correctness\": 7, \"feedback\": \"solid\"\x7d ok") =
      J.jobj [(str "correctness", J.jnum 7),
              (str "feedback", J.jstr (str "solid"))] := by
  have h := c5_first_accepted_block
    (str "Result: \x7b\"correctness\": 7, \"feedback\": \"solid\"\x7d ok")
    [] (str "\x7b\"correctness\": 7, \"feedback\": \"solid\"\x7d") []
    [(str "correctness", J.jnum 7), (str "feedback", J.jstr (str "solid"))]
    rfl (by intro b' hb'; cases hb') rfl
  have hbf : EvaluatorAgent.backfillFeedback
      [(str "correctness", J.jnum 7), (str "feedback", J.jstr (str "solid"))]
      (str "Result: \x7b\"correctness\": 7, \"feedback\": \"solid\"\x7d ok") =
      [(str "correctness", J.jnum 7), (str "feedback", J.jstr (str "solid"))] := rfl
  rw [hbf] at h
  exact h

/-- C8 counterexample: with a valid context, a 6-word rewritten intro and
the marker `"Problem:"` present in the base response — at position 0 — the
claim requires the splice, but `present_coding_problem` keeps the original
text unchanged because the source tests `find("Problem:") > 0`, which
fails for a marker at the very start. -/
theorem c8_counterexample :
    (str "hash maps") ≠ [] ∧
    (str "i could not extract").isPrefixOf (asciiLower (str "hash maps")) = false ∧
    (pySplitWs (str "Building on our discussion, try this.")).length < 50 ∧
    strFind (str "Problem: implement an LRU cache.") (str "Problem:") = some 0 ∧
    InterviewerAgent.present_coding_problem_text (str "hash maps")
      (str "Problem: implement an LRU cache.")
      (str "Building on our discussion, try this.") =
      str "Problem: implement an LRU cache." ∧
    (str "Building on our discussion, try this.").isPrefixOf
      (InterviewerAgent.present_coding_problem_text (str "hash maps")
        (str "Problem: implement an LRU cache.")
        (str "Building on our discussion, try this.")) = false := by
  refine ⟨by decide, rfl, by decide, rfl, rfl, rfl⟩

/-- C8 amended: with a supplied context that is non-empty and not a
"could not extract" placeholder, the rewritten intro is spliced in iff it
has fewer than 50 words and the literal marker `"Problem:"` is found at a
strictly positive position of the base response; when spliced, the result
is the rewritten intro, a blank line, and the base response unchanged from
the marker onward; otherwise the base response is returned unmodified. -/
theorem c8_splice_condition (context response customized_intro : Str)
    (hc : context ≠ [])
    (hp : (str "i could not extract").isPrefixOf (asciiLower context) = false) :
    (∀ i, strFind response (str "Problem:") = some i → 0 < i →
      (pySplitWs customized_intro).length < 50 →
      InterviewerAgent.present_coding_problem_text context response customized_intro =
        customized_intro ++ str "\n\n" ++ response.drop i ∧
      (str "Problem:").isPrefixOf (response.drop i) = true) ∧
    ((50 ≤ (pySplitWs customized_intro).length ∨
      strFind response (str "Problem:") = none ∨
      strFind response (str "Problem:") = some 0) →
      InterviewerAgent.present_coding_problem_text context response customized_intro =
        response) := by
  constructor
  · intro i hi h0 hw
    refine ⟨?_, strFind_some_prefix hi⟩
    unfold InterviewerAgent.present_coding_problem_text
    rw [hi]
    simp [hc, hp, h0, hw]
  · intro hdisj
    unfold InterviewerAgent.present_coding_problem_text
    rcases hdisj with hw | hf | hf
    · have : ¬ (pySplitWs customized_intro).length < 50 := by omega
      simp [this]
    · rw [hf]
      simp
    · rw [hf]
      simp

theorem c8_witness :
    InterviewerAgent.present_coding_problem_text (str "hash maps")
      (str "Here is a challenge. Problem: reverse a linked list.")
      (str "Since we discussed arrays, try this.") =
      str "Since we discussed arrays, try this." ++ str "\n\n" ++
        (str "Here is a challenge. Problem: reverse a linked list.").drop 21 :=
  ((c8_splice_condition (str "hash maps")
    (str "Here is a challenge. Problem: reverse a linked list.")
    (str "Since we discussed arrays, try this.")
    (by decide) rfl).1 21 rfl (by decide) (by decide)).1

/-- C10: `handle_candidate_response` appends the candidate entry (tagged
with the current stage and prefixed `"Candidate: "`) before delegating,
so the entry sits at the old transcript length in `get_interview_notes`
even when the coordinator call raises, in which case the transcript is
exactly the old one plus that entry. -/
theorem c10_candidate_entry_first (st : InterviewerState) (response : Str)
    (process : InterviewStage → Str → List NoteEntry →
      Except Str (Str × List NoteEntry)) :
    (InterviewerAgent.get_interview_notes
        (InterviewerAgent.handle_candidate_response st response process).2)[st.interview_notes.length]? =
      some ⟨st.current_stage, str "Candidate: " ++ response, none⟩ ∧
    (∀ e, process st.current_stage response
        (st.interview_notes ++
          [⟨st.current_stage, str "Candidate: " ++ response, none⟩]) =
        Except.error e →
      InterviewerAgent.get_interview_notes
        (InterviewerAgent.handle_candidate_response st response process).2 =
        st.interview_notes ++
          [⟨st.current_stage, str "Candidate: " ++ response, none⟩]) := by
  unfold InterviewerAgent.handle_candidate_response InterviewerAgent.get_interview_notes
  cases hp : process st.current_stage response (st.interview_notes ++
    [⟨st.current_stage, str "Candidate: " ++ response, none⟩]) with
  | error e =>
    refine ⟨?_, fun e' _ => by simp [hp]⟩
    simp only [hp]
    rw [List.getElem?_append_right (le_refl st.interview_notes.length)]
    simp
  | ok pair =>
    refine ⟨?_, fun e' h' => absurd h' (by simp)⟩
    simp only [hp]
    rw [List.append_assoc,
      List.getElem?_append_right (le_refl st.interview_notes.length)]
    simp

/-- C1: the claim fails on the Code Evaluator: when the generation call
returns the empty string, `evaluate_code` takes the heuristic path, sets
`feedback` to the raw text, and the final "ensure feedback is not empty"
check re-assigns that same empty raw text, so the returned record's
`feedback` field is the empty string. -/
theorem c1_empty_generation_empty_feedback :
    objGet (EvaluatorAgent.evaluate_code []) (str "feedback") = some (J.jstr []) := by
  rfl

/-- C4: on a raised generation call the Final Evaluator returns the fixed
degraded record: all four scores 5, the placeholder strengths and
areas-for-improvement lists, recommendation undecided/low, and a
detailed_feedback string that appends the error message to a fixed
non-empty prefix. -/
theorem c4_generation_failure_degraded_record (e : Str) :
    objGet (FinalEvaluatorAgent.evaluate_interview (Except.error e))
        (str "technical_skill") = some (J.jnum 5) ∧
    objGet (FinalEvaluatorAgent.evaluate_interview (Except.error e))
        (str "problem_solving") = some (J.jnum 5) ∧
    objGet (FinalEvaluatorAgent.evaluate_interview (Except.error e))
        (str "communication") = some (J.jnum 5) ∧
    objGet (FinalEvaluatorAgent.evaluate_interview (Except.error e))
        (str "overall_rating") = some (J.jnum 5) ∧
    objGet (FinalEvaluatorAgent.evaluate_interview (Except.error e))
        (str "strengths") =
      some (J.jarr [J.jstr (str "Could not analyze strengths due to system error")]) ∧
    objGet (FinalEvaluatorAgent.evaluate_interview (Except.error e))
        (str "areas_for_improvement") =
      some (J.jarr [J.jstr
        (str "Could not analyze areas for improvement due to system error")]) ∧
    objGet (FinalEvaluatorAgent.evaluate_interview (Except.error e))
        (str "recommendation") =
      some (J.jobj [(str "decision", J.jstr (str "undecided")),
                    (str "confidence", J.jstr (str "low"))]) ∧
    objGet (FinalEvaluatorAgent.evaluate_interview (Except.error e))
        (str "detailed_feedback") =
      some (J.jstr (FinalEvaluatorAgent.error_lead ++ e)) ∧
    FinalEvaluatorAgent.error_lead ++ e ≠ [] := by
  refine ⟨rfl, rfl, rfl, rfl, rfl, rfl, rfl, rfl, ?_⟩
  have hne : FinalEvaluatorAgent.error_lead ≠ [] := by decide
  intro h
  exact hne (List.append_eq_nil.mp h).1

/-- C9: the claim fails in both heuristic score extractors: the third
pattern of `EvaluatorAgent._extract_score` accepts any digit run after the
score name, and `FinalEvaluatorAgent._extract_score` accepts any digit run
before `/10`, so both return 15 — outside 0..10 — on the inputs below
(absence, by construction, is `none`, never 0). -/
theorem c9_extracted_score_exceeds_ten :
    EvaluatorAgent._extract_score (str "correctness: 15") (str "correctness") =
      some 15 ∧
    FinalEvaluatorAgent._extract_score (str "technical: 15/10") (str "technical") =
      some 15 ∧
    10 < 15 := by
  refine ⟨rfl, rfl, by norm_num⟩

theorem c10_witness :
    (InterviewerAgent.get_interview_notes
        (InterviewerAgent.handle_candidate_response
          ⟨[], InterviewStage.INTRODUCTION⟩ (str "hello")
          (fun _ _ _ => Except.error (str "down"))).2)[(0 : Nat)]? =
      some ⟨InterviewStage.INTRODUCTION, str "Candidate: " ++ str "hello", none⟩ ∧
    InterviewerAgent.get_interview_notes
      (InterviewerAgent.handle_candidate_response
        ⟨[], InterviewStage.INTRODUCTION⟩ (str "hello")
        (fun _ _ _ => Except.error (str "down"))).2 =
      [] ++ [⟨InterviewStage.INTRODUCTION, str "Candidate: " ++ str "hello", none⟩] := by
  have h := c10_candidate_entry_first ⟨[], InterviewStage.INTRODUCTION⟩
    (str "hello") (fun _ _ _ => Except.error (str "down"))
  exact ⟨h.1, h.2 (str "down") rfl⟩

end InterviewerAI
